import Mathlib

/-!
Verification of the fastclient dispatch engine: a shallow embedding of
`src/fastclient/__init__.py` (class `FastClient`), with proofs about its
callback routing, store capability gate, store locking, sliding-window
telemetry, ticket generator and controller loop.
-/

namespace Fastclient

/-- Modelled from the spec: the event kinds of the callback registry
(`fastclient.types.RequestEvent`, not under `src/`): outcomes are delivered
either to RESPONSE-kind or to ERROR-kind callbacks. -/
inductive RequestEvent where
  | RESPONSE
  | ERROR
deriving DecidableEq

/-- Modelled from the spec: the runtime type tag of a reaped outcome.
`Response` is the success type (`fastclient.types.Response`, not under
`src/`); `ResponseSubclass` stands for any proper subclass of `Response`;
`ErrorResult` is the failure type (spec section 3: "tagged success (Response)
or failure (ErrorResult)"); `OtherType` is any unrelated runtime type. -/
inductive PyType where
  | Response
  | ResponseSubclass
  | ErrorResult
  | OtherType
deriving DecidableEq

/-- Python `isinstance(x, Response)` on the runtime type tag: true for
`Response` itself and for every subclass of it. -/
def isinstanceOfResponse : PyType → Bool
  | PyType.Response => true
  | PyType.ResponseSubclass => true
  | _ => false

/-- A reaped outcome: its runtime type tag together with the identity of the
work item it answers. Callbacks are identified by natural numbers. -/
structure PyResult where
  ty : PyType
  item : Nat
deriving DecidableEq

/-- The controller's outcome discrimination `type(result) == Response`
(`__init__.py` line 251): exact runtime-type equality, not `isinstance`. -/
def typeEqResponse (r : PyResult) : Bool := decide (r.ty = PyType.Response)

/-- The callback registry `self._callbacks` (a `defaultdict(list)` keyed by
`RequestEvent`): one ordered handler list per event kind. -/
structure Callbacks where
  response : List Nat
  error : List Nat
deriving DecidableEq

/-- Lines 251-256 of `FastClient._controller`: if `type(result) == Response`
then every `RESPONSE`-kind callback is called on the result, in registration
order, else every `ERROR`-kind callback is; the result is passed to each
callback as an argument (the returned list pairs each invoked callback with
the result it receives). The delivery path raises nothing: it is a total
function. -/
def controllerDispatch (cbs : Callbacks) (r : PyResult) : List (Nat × PyResult) :=
  if typeEqResponse r then cbs.response.map (fun c => (c, r))
  else cbs.error.map (fun c => (c, r))

/-- The error taxonomy raised by the dispatcher surface:
`StoreNotSupportedError` and `NoListenersError` come from
`fastclient.errors` (not under `src/`, modelled from the spec's taxonomy,
section 7); `keyError` is Python's `KeyError` raised by a lookup of a
missing key. -/
inductive FCError where
  | storeNotSupportedError
  | noListenersError
  | keyError
deriving DecidableEq

/-- The dispatcher state built by `FastClient.__init__` (lines 22-64):
configuration, the optional store map and store lock (allocated only when
`use_store` is set), the callback registry and the `_callback_registered`
flag. The pending request queue is modelled separately in the controller
embedding. Pools are represented by their optional group ids
(`pool.id_`). -/
structure FastClientState (V : Type) where
  rate : ℚ
  pool_ids : List (Option Nat)
  num_pools : Nat
  max_connections : ℚ
  use_store : Bool
  use_rps : Bool
  store : Option (List (String × V))
  store_lock_allocated : Bool
  callbacks : Callbacks
  callback_registered : Bool

/-- `FastClient.__init__` (lines 22-64): `max_connections or self._rate`
(Python falsiness: `None` and `0` both fall back to the rate); the store map
and the store lock are allocated only when `use_store` is true; no callback
is registered yet. -/
def FastClient.init (V : Type) (rate : ℚ) (pool_ids : List (Option Nat))
    (num_pools : Nat) (max_connections : Option ℚ) (use_store use_rps : Bool) :
    FastClientState V :=
  { rate := rate
    pool_ids := pool_ids
    num_pools := num_pools
    max_connections :=
      match max_connections with
      | none => rate
      | some m => if m = 0 then rate else m
    use_store := use_store
    use_rps := use_rps
    store := if use_store then some [] else none
    store_lock_allocated := use_store
    callbacks := { response := [], error := [] }
    callback_registered := false }

/-- `FastClient.on` (lines 82-95): append the callback to the handler list of
the given event kind and set `_callback_registered`. -/
def FastClient.on (s : FastClientState V) (event : RequestEvent) (cb : Nat) :
    FastClientState V :=
  match event with
  | RequestEvent.RESPONSE =>
      { s with callbacks := { s.callbacks with response := s.callbacks.response ++ [cb] }
               callback_registered := true }
  | RequestEvent.ERROR =>
      { s with callbacks := { s.callbacks with error := s.callbacks.error ++ [cb] }
               callback_registered := true }

/-- Python-dict update for the store: replace the value at an existing key,
otherwise append the new binding. -/
def storeSet (m : List (String × V)) (k : String) (v : V) : List (String × V) :=
  if m.any (fun e => e.1 == k) then m.map (fun e => if e.1 == k then (k, v) else e)
  else m ++ [(k, v)]

/-- `FastClient.__setitem__` (lines 66-74): raise `StoreNotSupportedError`
when the store feature is disabled (returning the state unchanged), else
acquire the store lock, write, release. The result pairs the call's outcome
with the dispatcher state after the call. -/
def FastClient.setitem (s : FastClientState V) (k : String) (v : V) :
    Except FCError Unit × FastClientState V :=
  if s.use_store = false then (Except.error FCError.storeNotSupportedError, s)
  else (Except.ok (), { s with store := s.store.map (fun m => storeSet m k v) })

/-- `FastClient.__getitem__` (lines 76-80): raise `StoreNotSupportedError`
when the store feature is disabled, else return `self._store[key]` (which
raises `KeyError` for a missing key). No lock is taken on this path. -/
def FastClient.getitem (s : FastClientState V) (k : String) : Except FCError V :=
  if s.use_store = false then Except.error FCError.storeNotSupportedError
  else
    match s.store with
    | some m =>
        match m.find? (fun e => e.1 == k) with
        | some e => Except.ok e.2
        | none => Except.error FCError.keyError
    | none => Except.error FCError.keyError

/-- The concurrent workers `FastClient.run` starts (lines 142-177), in start
order: the rps counter process (only when `use_rps`), one controller process
per solo pool and per pool group, and the ticket-manager process. -/
inductive WorkerKind where
  | rpsCounter
  | controller
  | ticketManager
deriving DecidableEq

/-- Lines 119-126 of `FastClient.run`: pools with `id_ == None` run solo;
pools sharing an id are grouped (`defaultdict(list)` keyed by id, insertion
order). Returns the number of solo pools and the list of distinct group
ids. -/
def poolPartition (ids : List (Option Nat)) : Nat × List Nat :=
  ids.foldl
    (fun acc i =>
      match i with
      | none => (acc.1 + 1, acc.2)
      | some g => (acc.1, if g ∈ acc.2 then acc.2 else acc.2 ++ [g]))
    (0, [])

/-- The worker processes `FastClient.run` starts when it does not raise, in
source order: the rps counter (if `use_rps`), one controller per solo pool,
one controller per pool group, then the ticket manager. -/
def FastClient.workersStarted (s : FastClientState V) : List WorkerKind :=
  (if s.use_rps then [WorkerKind.rpsCounter] else []) ++
    List.replicate ((poolPartition s.pool_ids).1 + (poolPartition s.pool_ids).2.length)
      WorkerKind.controller ++
    [WorkerKind.ticketManager]

/-- `FastClient.run` (lines 113-115 and 142-177): raise `NoListenersError`
first of all — before any worker is started — when no callback has been
registered; otherwise start all workers. -/
def FastClient.run (s : FastClientState V) : Except FCError (List WorkerKind) :=
  if s.callback_registered = false then Except.error FCError.noListenersError
  else Except.ok (FastClient.workersStarted s)

/-! Store-lock traces. Each store-touching code path of `__init__.py` is
embedded as the sequence of primitive events it performs on the shared store
and its lock, so that lock-guardedness can be stated about the path itself. -/

/-- A primitive event on the shared store: acquiring or releasing
`self._store_lock`, or reading/writing a key of `self._store`. -/
inductive StoreEv where
  | acquire
  | release
  | readEv (k : String)
  | writeEv (k : String)
deriving DecidableEq

/-- `accessesGuarded d es` holds when, starting from lock depth `d`, every
read and write event in `es` happens while the lock is held (depth
positive). -/
def accessesGuarded : Nat → List StoreEv → Bool
  | _, [] => true
  | d, StoreEv.acquire :: es => accessesGuarded (d + 1) es
  | d, StoreEv.release :: es => accessesGuarded (d - 1) es
  | d, StoreEv.readEv _ :: es => decide (0 < d) && accessesGuarded d es
  | d, StoreEv.writeEv _ :: es => decide (0 < d) && accessesGuarded d es

/-- The store events of `FastClient.__setitem__` with the store enabled
(lines 70-74): acquire the lock, write the key, release the lock. -/
def setitemTrace (k : String) : List StoreEv :=
  [StoreEv.acquire, StoreEv.writeEv k, StoreEv.release]

/-- The store events of `FastClient.__getitem__` with the store enabled
(line 80): read the key; no lock operation appears on this path. -/
def getitemTrace (k : String) : List StoreEv :=
  [StoreEv.readEv k]

/-- The store events of one callback batch in `FastClient._controller` with
the store enabled (lines 248-258): acquire the lock, expose the store to the
callbacks (whose own store events are `cbEvents`), run them, release the
lock after the whole batch. -/
def controllerBatchTrace (cbEvents : List StoreEv) : List StoreEv :=
  StoreEv.acquire :: cbEvents ++ [StoreEv.release]

/-! Telemetry: `FastClient._count_rps` (lines 273-297). Timestamps are
rationals (seconds). -/

/-- The state of the rps counter process: the lifetime completion count, the
process start time, the two time-ordered queues `list1` (recent) and `list9`
(aging), and the three published values `rps`, `rps1`, `rps10`. -/
structure RpsState where
  count : Nat
  start : ℚ
  list1 : List ℚ
  list9 : List ℚ
  rps : ℚ
  rps1 : Nat
  rps10 : Nat
deriving DecidableEq

/-- One iteration of `_count_rps` (lines 283-297), at current time `t`:
increment the count, append `t` to `list1`, move the prefix of `list1` older
than `t - 1` to the end of `list9`, drop from the front of `list9` every
entry older than `t - 1`, then publish `rps = count / (t - start)`,
`rps1 = len(list1)` and `rps10 = len(list1) + len(list9)`. -/
def countRpsStep (s : RpsState) (t : ℚ) : RpsState :=
  let count := s.count + 1
  let list1 := s.list1 ++ [t]
  let migrated := list1.takeWhile (fun x => decide (x < t - 1))
  let list1' := list1.dropWhile (fun x => decide (x < t - 1))
  let list9' := (s.list9 ++ migrated).dropWhile (fun x => decide (x < t - 1))
  { count := count
    start := s.start
    list1 := list1'
    list9 := list9'
    rps := count / (t - s.start)
    rps1 := list1'.length
    rps10 := list1'.length + list9'.length }

/-- The rps counter run on a whole sequence of completion-notification
times, starting (lines 275-278) with count 0, start time 0 and both queues
empty. -/
def countRps (times : List ℚ) : RpsState :=
  times.foldl countRpsStep
    { count := 0, start := 0, list1 := [], list9 := [], rps := 0, rps1 := 0, rps10 := 0 }

/-! Pool selection. Python's builtin `min(iterable, key=...)` scans left to
right and replaces the current minimum only on a strictly smaller key, so it
returns the first element attaining the minimal key. The controller uses it
at line 223: `min(pools, key=lambda p: p._get_remaining_tasks())`. -/

/-- Python `min` with a key function, over the non-empty list `x :: xs`. -/
def pyMin (key : α → Nat) : α → List α → α
  | x, [] => x
  | x, y :: ys => pyMin key (if key y < key x then y else x) ys

/-- A work item, identified by a natural number. -/
abbrev Item := Nat

/-- `pool._get_remaining_tasks()` in the controller embedding: the number of
submitted-but-uncompleted items currently owned by pool `p`, read off the
in-flight list (pairs of pool index and item). -/
def remainingTasks (inFlight : List (Nat × Item)) (p : Nat) : Nat :=
  (inFlight.filter (fun e => e.1 == p)).length

/-- Line 223 of `_controller`: choose, among the owned pools
`0, ..., nPools - 1`, the one `min` returns for the key
`_get_remaining_tasks`. -/
def poolChoice (nPools : Nat) (inFlight : List (Nat × Item)) : Nat :=
  match List.range nPools with
  | [] => 0
  | x :: xs => pyMin (remainingTasks inFlight) x xs

/-! Ticket generator: `FastClient._create_tickets` (lines 262-271). The
(externally terminated) infinite loop is embedded as a fold over the finite
sequence of `time()` readings its passes observe; its state is the
`last_tickets` timestamp together with the log of every ticket sent so far,
as (connection index, send time) pairs. -/

/-- Lines 269-270: one emission pass sends one ticket to every one of the
`n` controller connections. -/
def sendAll (n : Nat) (t : ℚ) : List (Nat × ℚ) :=
  (List.range n).map (fun c => (c, t))

/-- One scheduling pass of `_create_tickets` at time `t` (lines 267-271): if
`t - last_tickets > 1 / rate`, send one ticket to every connection and set
`last_tickets = t`; otherwise do nothing. -/
def ticketStep (n : Nat) (rate : ℚ) (s : ℚ × List (Nat × ℚ)) (t : ℚ) :
    ℚ × List (Nat × ℚ) :=
  if 1 / rate < t - s.1 then (t, s.2 ++ sendAll n t) else s

/-- The ticket generator run over the pass times `times`, starting from
`last_tickets = 0` (line 265) and an empty send log. -/
def ticketRun (n : Nat) (rate : ℚ) (times : List ℚ) : ℚ × List (Nat × ℚ) :=
  times.foldl (ticketStep n rate) (0, [])

/-- The tickets received on controller channel `c`: the send times logged
against connection index `c`, in send order. -/
def chTickets (c : Nat) (sent : List (Nat × ℚ)) : List ℚ :=
  (sent.filter (fun e => e.1 == c)).map Prod.snd

/-! Controller: `FastClient._controller` (lines 197-260). The loop is a fold
over per-iteration observations (whether `tickets.poll()` sees a ticket, and
which completions the owned pools' feeds deliver). Pools are the external
collaborators of spec section 6: each submitted item comes back exactly once
on its pool's completion feed, so a completion is identified by an index
into the controller's in-flight list plus the runtime type of the reaped
result; an index that matches no in-flight entry delivers nothing. -/

/-- The controller's loop state: the pending request queue (shared
`JoinableQueue`, here owned by this controller), the local in-flight
`counter`, the submitted-but-uncompleted items with their owning pool, the
completed callback batches (item, event kind whose callbacks ran), and
whether the loop has hit its `break`. -/
structure CtrlState where
  queue : List Item
  counter : ℤ
  inFlight : List (Nat × Item)
  processed : List (Item × RequestEvent)
  halted : Bool
deriving DecidableEq

/-- What one loop iteration observes: whether `tickets.poll()` reports a
ticket, and the completions `wait_for_connection` hands over, each given as
an index into the current in-flight list together with the runtime type of
the reaped result. -/
structure CtrlObs where
  ticket : Bool
  completions : List (Nat × PyType)
deriving DecidableEq

/-- Reaping one completion (lines 230-258): receive the result, decrement
the in-flight counter, and run exactly one callback batch for it —
`RESPONSE`-kind if `type(result) == Response`, else `ERROR`-kind. A
completion index with no in-flight entry delivers nothing. -/
def reapOne (s : CtrlState) (c : Nat × PyType) : CtrlState :=
  if h : c.1 < s.inFlight.length then
    { s with
      inFlight := s.inFlight.eraseIdx c.1
      counter := s.counter - 1
      processed := s.processed ++
        [((s.inFlight.get ⟨c.1, h⟩).2,
          if typeEqResponse { ty := c.2, item := (s.inFlight.get ⟨c.1, h⟩).2 } then
            RequestEvent.RESPONSE
          else RequestEvent.ERROR)] }
  else s

/-- One iteration of the controller loop (lines 215-260): break once the
in-flight counter is zero and the queue is observed empty (line 217); else,
if a ticket is available, pop one request — when the queue is empty the
`queue.Empty` exception is caught at line 259 and the rest of the iteration
(including reaping) is skipped — submit it to the least-busy owned pool and
bump the counter; finally reap every ready completion. -/
def ctrlStep (nPools : Nat) (s : CtrlState) (o : CtrlObs) : CtrlState :=
  if s.halted then s
  else if s.counter = 0 ∧ s.queue = [] then { s with halted := true }
  else if o.ticket then
    match s.queue with
    | [] => s
    | i :: rest =>
        o.completions.foldl reapOne
          { s with
            queue := rest
            inFlight := s.inFlight ++ [(poolChoice nPools s.inFlight, i)]
            counter := s.counter + 1 }
  else o.completions.foldl reapOne s

/-- The controller's start state: the staged requests pending, nothing in
flight, nothing processed (lines 213-214). -/
def ctrlInit (staged : List Item) : CtrlState :=
  { queue := staged, counter := 0, inFlight := [], processed := [], halted := false }

/-- The controller loop run over a finite sequence of iteration
observations. -/
def ctrlRun (nPools : Nat) (staged : List Item) (obs : List CtrlObs) : CtrlState :=
  obs.foldl (ctrlStep nPools) (ctrlInit staged)

/-- Every work item the controller is accountable for, wherever it currently
lives: still queued, in flight at a pool, or already delivered to a callback
batch. -/
def ctrlItems (s : CtrlState) : List Item :=
  s.queue ++ s.inFlight.map Prod.snd ++ s.processed.map Prod.fst

/-! Theorems. -/

/-- C7: `run()` raises `NoListenersError` when no callback has been
registered, and it raises first of all — the error value carries no started
worker, while the success value lists every worker `run` starts; after any
`on()` registration (either event kind), `run()` returns the started workers
instead of raising. -/
theorem run_requires_registered_callback {V : Type} (s : FastClientState V) :
    (s.callback_registered = false →
      FastClient.run s = Except.error FCError.noListenersError) ∧
    (∀ (event : RequestEvent) (cb : Nat),
      FastClient.run (FastClient.on s event cb) =
        Except.ok (FastClient.workersStarted (FastClient.on s event cb))) := by
  constructor
  · intro h
    simp [FastClient.run, h]
  · intro event cb
    have hreg : (FastClient.on s event cb).callback_registered = true := by
      cases event <;> rfl
    simp [FastClient.run, hreg]

/-- C7 witness: a freshly initialized client has no callback registered, so
`run()` raises `NoListenersError`; after one `on()` registration it starts
the workers. -/
theorem run_requires_registered_callback_witness :
    FastClient.run (FastClient.init Nat 1 [none] 8 none true true) =
      Except.error FCError.noListenersError ∧
    FastClient.run
        (FastClient.on (FastClient.init Nat 1 [none] 8 none true true)
          RequestEvent.RESPONSE 0) =
      Except.ok
        (FastClient.workersStarted
          (FastClient.on (FastClient.init Nat 1 [none] 8 none true true)
            RequestEvent.RESPONSE 0)) :=
  ⟨(run_requires_registered_callback (FastClient.init Nat 1 [none] 8 none true true)).1 rfl,
   (run_requires_registered_callback (FastClient.init Nat 1 [none] 8 none true true)).2
     RequestEvent.RESPONSE 0⟩

/-- C8: constructing with `use_store = false` allocates neither the store
map nor the store lock; every `set` call and every `get` call then raises
`StoreNotSupportedError` and leaves the state untouched. With
`use_store = true`, neither call raises that error. -/
theorem store_capability_gate (V : Type) (rate : ℚ) (ids : List (Option Nat))
    (np : Nat) (mc : Option ℚ) (urps : Bool) (k : String) (v : V) :
    (FastClient.setitem (FastClient.init V rate ids np mc false urps) k v).1 =
        Except.error FCError.storeNotSupportedError ∧
    (FastClient.setitem (FastClient.init V rate ids np mc false urps) k v).2 =
        FastClient.init V rate ids np mc false urps ∧
    FastClient.getitem (FastClient.init V rate ids np mc false urps) k =
        Except.error FCError.storeNotSupportedError ∧
    (FastClient.init V rate ids np mc false urps).store = none ∧
    (FastClient.init V rate ids np mc false urps).store_lock_allocated = false ∧
    (FastClient.setitem (FastClient.init V rate ids np mc true urps) k v).1 =
        Except.ok () ∧
    FastClient.getitem (FastClient.init V rate ids np mc true urps) k ≠
        Except.error FCError.storeNotSupportedError := by
  refine ⟨rfl, rfl, rfl, rfl, rfl, rfl, ?_⟩
  simp [FastClient.getitem, FastClient.init]

/-- C9: a failure outcome (runtime type `ErrorResult`) is delivered to
exactly the `ERROR`-kind registered callbacks, once each, in registration
order, each receiving the failure as a data argument; the `RESPONSE`-kind
list is not consulted, and the total delivery function raises nothing. -/
theorem error_outcome_routing (cbs : Callbacks) (r : PyResult)
    (hfail : r.ty = PyType.ErrorResult) :
    controllerDispatch cbs r = cbs.error.map (fun c => (c, r)) := by
  have hf : typeEqResponse r = false := by
    simp [typeEqResponse, hfail]
  simp [controllerDispatch, hf]

/-- C9 witness: with RESPONSE callback 1 and ERROR callbacks 2 and 3
registered, a failure on item 7 is delivered to callbacks 2 and 3, in that
order, and to no other. -/
theorem error_outcome_routing_witness :
    controllerDispatch { response := [1], error := [2, 3] }
        { ty := PyType.ErrorResult, item := 7 } =
      [(2, { ty := PyType.ErrorResult, item := 7 }),
       (3, { ty := PyType.ErrorResult, item := 7 })] :=
  (error_outcome_routing { response := [1], error := [2, 3] }
      { ty := PyType.ErrorResult, item := 7 } rfl).trans rfl

/-- C10: the controller discriminates outcomes with exact type equality
(`type(result) == Response`), so a result whose runtime type is a proper
subclass of `Response` fails the test and is routed to the `ERROR`-kind
callbacks, not the `RESPONSE`-kind ones. -/
theorem subclass_routed_to_error_callbacks (cbs : Callbacks) (r : PyResult)
    (hsub : isinstanceOfResponse r.ty = true) (hproper : r.ty ≠ PyType.Response) :
    typeEqResponse r = false ∧
    controllerDispatch cbs r = cbs.error.map (fun c => (c, r)) := by
  have hf : typeEqResponse r = false := by
    cases h : r.ty <;> simp [typeEqResponse, h] <;> exact hproper h
  exact ⟨hf, by simp [controllerDispatch, hf]⟩

/-- C10 witness: a result of a proper subclass of `Response`, on item 5,
goes to the ERROR callback 9, not to the RESPONSE callback 4. -/
theorem subclass_routed_to_error_callbacks_witness :
    typeEqResponse { ty := PyType.ResponseSubclass, item := 5 } = false ∧
    controllerDispatch { response := [4], error := [9] }
        { ty := PyType.ResponseSubclass, item := 5 } =
      [(9, { ty := PyType.ResponseSubclass, item := 5 })] := by
  obtain ⟨h1, h2⟩ :=
    subclass_routed_to_error_callbacks { response := [4], error := [9] }
      { ty := PyType.ResponseSubclass, item := 5 } rfl (by decide)
  exact ⟨h1, h2.trans rfl⟩

/-- Helper: a trace of pure reads and writes followed by a release is fully
guarded as long as the lock is held on entry. -/
lemma accessesGuarded_of_no_lock_ops (es : List StoreEv)
    (hes : ∀ e ∈ es, e ≠ StoreEv.acquire ∧ e ≠ StoreEv.release) (d : Nat)
    (hd : 0 < d) : accessesGuarded d (es ++ [StoreEv.release]) = true := by
  induction es generalizing d with
  | nil => rfl
  | cons e es ih =>
      have he := hes e (List.mem_cons_self e es)
      have hes' : ∀ x ∈ es, x ≠ StoreEv.acquire ∧ x ≠ StoreEv.release :=
        fun x hx => hes x (List.mem_cons_of_mem e hx)
      cases e with
      | acquire => exact absurd rfl he.1
      | release => exact absurd rfl he.2
      | readEv k =>
          simp only [List.cons_append, accessesGuarded, decide_eq_true_eq]
          simp [hd, ih hes' d hd]
      | writeEv k =>
          simp only [List.cons_append, accessesGuarded, decide_eq_true_eq]
          simp [hd, ih hes' d hd]

/-- C2 counterexample: the dispatcher's `get` surface
(`__getitem__`, line 80) reads the store map without acquiring the store
lock — its store trace, run from lock depth 0, contains an unguarded
read. -/
theorem store_get_unguarded_counterexample :
    accessesGuarded 0 (getitemTrace "k") = false := rfl

/-- C2 amended: the dispatcher's `set` surface and the controller's callback
batches are lock-guarded — `__setitem__` acquires before its write and
releases afterwards, and a controller batch holds the lock around all
callback store events — but the dispatcher's `get` surface reads the store
map without holding the lock. -/
theorem store_lock_guarding (k k2 : String) (cbEvents : List StoreEv)
    (hcb : ∀ e ∈ cbEvents, e ≠ StoreEv.acquire ∧ e ≠ StoreEv.release) :
    accessesGuarded 0 (setitemTrace k) = true ∧
    accessesGuarded 0 (controllerBatchTrace cbEvents) = true ∧
    accessesGuarded 0 (getitemTrace k2) = false := by
  refine ⟨rfl, ?_, rfl⟩
  show accessesGuarded 1 (cbEvents ++ [StoreEv.release]) = true
  exact accessesGuarded_of_no_lock_ops cbEvents hcb 1 Nat.one_pos

/-- C2 witness: a batch in which a callback reads key "a" and writes key
"b" is guarded, the `set` path on key "x" is guarded, and the `get` path on
key "y" is not. -/
theorem store_lock_guarding_witness :
    accessesGuarded 0 (setitemTrace "x") = true ∧
    accessesGuarded 0 (controllerBatchTrace [StoreEv.readEv "a", StoreEv.writeEv "b"]) = true ∧
    accessesGuarded 0 (getitemTrace "y") = false :=
  store_lock_guarding "x" "y" [StoreEv.readEv "a", StoreEv.writeEv "b"] (by decide)

/-- C3 counterexample: running `_count_rps` on the spec's example
notification times 0, 0.5, 1.2, 9.9, 10.5 seconds, the values published by
the final update are `rps1 = 2` and `rps10 = 2` — not the claimed 1-second
count of 1 (the 9.9s event is also within the trailing second) and not the
claimed 10-second count of 3 (the 1.2s and 9.9s events are not retained:
line 291 drops from the aging queue the entries older than one second, not
ten). The second conjunct exhibits the dropped-too-early behavior directly:
an aging entry only 1.5 seconds old is removed by a single update. -/
theorem count_rps_example_counterexample :
    ¬ ((countRps [0, 1 / 2, 6 / 5, 99 / 10, 21 / 2]).rps1 = 1 ∧
       (countRps [0, 1 / 2, 6 / 5, 99 / 10, 21 / 2]).rps10 = 3) ∧
    (countRpsStep
        { count := 1, start := 0, list1 := [], list9 := [3 / 2],
          rps := 0, rps1 := 0, rps10 := 1 } 3).list9 = [] := by
  constructor
  · intro h
    norm_num [countRps, countRpsStep, List.foldl, List.takeWhile_cons,
      List.dropWhile_cons] at h
  · norm_num [countRpsStep, List.takeWhile_cons, List.dropWhile_cons]

/-- C3 amended: on each notification the telemetry appends the timestamp to
the recent queue and migrates entries older than 1 second into the aging
queue, but it then removes from the aging queue every entry older than one
second (not ten), leaving the aging queue empty after each update on
time-ordered input; hence at the spec's example times the final update
publishes a 1-second rate of 2 (the 9.9s and 10.5s events) and a 10-second
rate that also equals 2, having lost the 1.2s and 9.9s events. -/
theorem count_rps_example_values :
    (countRps [0, 1 / 2, 6 / 5, 99 / 10, 21 / 2]).rps1 = 2 ∧
    (countRps [0, 1 / 2, 6 / 5, 99 / 10, 21 / 2]).rps10 = 2 ∧
    (countRps [0, 1 / 2, 6 / 5, 99 / 10, 21 / 2]).list1 = [99 / 10, 21 / 2] ∧
    (countRps [0, 1 / 2, 6 / 5, 99 / 10, 21 / 2]).list9 = [] := by
  norm_num [countRps, countRpsStep, List.foldl, List.takeWhile_cons,
    List.dropWhile_cons]

/-- Helper: Python `min` returns an element whose key is minimal over the
whole (non-empty) scanned list. -/
lemma pyMin_le {α : Type} (key : α → Nat) (x : α) (xs : List α) :
    ∀ z ∈ x :: xs, key (pyMin key x xs) ≤ key z := by
  induction xs generalizing x with
  | nil =>
      intro z hz
      simp only [List.mem_singleton] at hz
      subst hz
      exact Nat.le_refl _
  | cons y ys ih =>
      intro z hz
      show key (pyMin key (if key y < key x then y else x) ys) ≤ key z
      have hx' : key (if key y < key x then y else x) ≤ key x := by
        split
        · exact Nat.le_of_lt (by assumption)
        · exact Nat.le_refl _
      have hy' : key (if key y < key x then y else x) ≤ key y := by
        split
        · exact Nat.le_refl _
        · exact Nat.le_of_not_lt (by assumption)
      have hm : key (pyMin key (if key y < key x then y else x) ys) ≤
          key (if key y < key x then y else x) :=
        ih _ _ (List.mem_cons_self _ _)
      rcases List.mem_cons.1 hz with h | h
      · subst h; exact hm.trans hx'
      rcases List.mem_cons.1 h with h | h
      · subst h; exact hm.trans hy'
      · exact ih _ z (List.mem_cons_of_mem _ h)

/-- Helper: when no later element has a strictly smaller key, Python `min`
keeps its current leftmost candidate. -/
lemma pyMin_eq_self {α : Type} (key : α → Nat) (x : α) (xs : List α)
    (h : ∀ z ∈ xs, ¬ key z < key x) : pyMin key x xs = x := by
  induction xs generalizing x with
  | nil => rfl
  | cons y ys ih =>
      show pyMin key (if key y < key x then y else x) ys = x
      rw [if_neg (h y (List.mem_cons_self _ _))]
      exact ih x (fun z hz => h z (List.mem_cons_of_mem _ hz))

/-- Helper: Python `min` returns the first element of the scanned list that
attains the minimal key — the leftmost tie wins. -/
lemma pyMin_first {α : Type} (key : α → Nat) (x : α) (xs : List α) :
    (x :: xs).find? (fun z => key z == key (pyMin key x xs)) = some (pyMin key x xs) := by
  induction xs generalizing x with
  | nil =>
      simp [pyMin, List.find?]
  | cons y ys ih =>
      have hgoalm : pyMin key x (y :: ys) = pyMin key (if key y < key x then y else x) ys := rfl
      by_cases hxm : key x = key (pyMin key x (y :: ys))
      · have hnyx : ¬ key y < key x := by
          intro hc
          have h1 : key (pyMin key (if key y < key x then y else x) ys) ≤
              key (if key y < key x then y else x) :=
            pyMin_le key _ ys _ (List.mem_cons_self _ _)
          rw [if_pos hc] at h1
          rw [hgoalm, if_pos hc] at hxm
          omega
        have hx' : (if key y < key x then y else x) = x := if_neg hnyx
        rw [hgoalm, hx'] at hxm ⊢
        have hmin : ∀ z ∈ ys, ¬ key z < key x := by
          intro z hz hc
          have h1 : key (pyMin key x ys) ≤ key z :=
            pyMin_le key x ys z (List.mem_cons_of_mem _ hz)
          omega
        have hme : pyMin key x ys = x := pyMin_eq_self key x ys hmin
        rw [hme]
        rw [List.find?_cons, show (key x == key x) = true by simp]
      · rw [List.find?_cons, show (key x == key (pyMin key x (y :: ys))) = false by
          simp only [beq_eq_false_iff_ne, ne_eq]; exact hxm]
        by_cases hc : key y < key x
        · rw [hgoalm, if_pos hc] at hxm ⊢
          exact ih y
        · rw [hgoalm, if_neg hc] at hxm ⊢
          have hmlex : key (pyMin key x ys) ≤ key x :=
            pyMin_le key x ys x (List.mem_cons_self _ _)
          rw [List.find?_cons, show (key y == key (pyMin key x ys)) = false by
            simp only [beq_eq_false_iff_ne, ne_eq]
            intro heq
            have hxy : key x ≤ key y := Nat.le_of_not_lt hc
            omega]
          have hx2 := ih x
          rw [List.find?_cons, show (key x == key (pyMin key x ys)) = false by
            simp only [beq_eq_false_iff_ne, ne_eq]; exact hxm] at hx2
          exact hx2

/-- C4: at every admission step the controller's `min(pools, key=...)` call
selects an owned pool of minimal outstanding-task count — its key is a lower
bound of all keys, and it is the first element of the scanned list attaining
that minimum, so ties break in declaration order. In particular, with three
owned pools whose outstanding counts are [3, 1, 4], it selects pool 1, the
pool with count 1. -/
theorem controller_selects_least_busy {α : Type} (key : α → Nat) (x : α) (xs : List α) :
    (∀ z ∈ x :: xs, key (pyMin key x xs) ≤ key z) ∧
    (x :: xs).find? (fun z => key z == key (pyMin key x xs)) = some (pyMin key x xs) ∧
    poolChoice 3 [(0, 10), (0, 11), (0, 12), (1, 13), (2, 14), (2, 15), (2, 16), (2, 17)] = 1 :=
  ⟨pyMin_le key x xs, pyMin_first key x xs, by decide⟩

/-- Helper: the per-channel views of a send log distribute over
concatenation. -/
lemma chTickets_append (c : Nat) (a b : List (Nat × ℚ)) :
    chTickets c (a ++ b) = chTickets c a ++ chTickets c b := by
  simp [chTickets, List.filter_append]

/-- Helper: the per-channel view of a single logged send. -/
lemma chTickets_single (c m : Nat) (t : ℚ) :
    chTickets c [(m, t)] = if m = c then [t] else [] := by
  by_cases h : m = c
  · subst h
    simp [chTickets, List.filter_cons]
  · simp [chTickets, List.filter_cons, h]

/-- Helper: a broadcast pass delivers the pass time to exactly the channels
with index below `n`. -/
lemma chTickets_sendAll (c n : Nat) (t : ℚ) :
    chTickets c (sendAll n t) = if c < n then [t] else [] := by
  induction n with
  | zero => simp [chTickets, sendAll]
  | succ n ih =>
      have hsplit : sendAll (n + 1) t = sendAll n t ++ [(n, t)] := by
        rw [sendAll, List.range_succ, List.map_append]
        rfl
      rw [hsplit, chTickets_append, ih, chTickets_single]
      by_cases h : c < n
      · rw [if_pos h, if_neg (by omega), if_pos (by omega)]
        simp
      · by_cases h2 : n = c
        · subst h2
          rw [if_neg h, if_pos rfl, if_pos (by omega)]
          simp
        · rw [if_neg h, if_neg h2, if_neg (by omega)]
          simp

/-- Helper: a pass whose time exceeds `last_tickets` by more than `1/rate`
broadcasts and updates `last_tickets`. -/
lemma ticketStep_emit (n : Nat) (rate : ℚ) (last : ℚ) (sent : List (Nat × ℚ)) (t : ℚ)
    (hcond : 1 / rate < t - last) :
    ticketStep n rate (last, sent) t = (t, sent ++ sendAll n t) := by
  unfold ticketStep
  exact if_pos hcond

/-- Helper: a pass inside the `1/rate` window does nothing. -/
lemma ticketStep_skip (n : Nat) (rate : ℚ) (last : ℚ) (sent : List (Nat × ℚ)) (t : ℚ)
    (hcond : ¬ 1 / rate < t - last) :
    ticketStep n rate (last, sent) t = (last, sent) := by
  unfold ticketStep
  exact if_neg hcond

/-- Helper: the ticket generator's loop invariant — all channels have
received the same emission-time list, the log holds `n` tickets per
emission, consecutive emissions are more than `1/rate` apart, every emission
is at or before `last_tickets`, and the emission count times `1/rate` is
bounded by `last_tickets`. -/
lemma ticketFold_inv (n : Nat) (rate : ℚ) (hr : 0 < rate) (times : List ℚ) :
    ∀ (last : ℚ) (sent : List (Nat × ℚ)) (emits : List ℚ),
      (∀ c, c < n → chTickets c sent = emits) →
      sent.length = n * emits.length →
      List.Chain' (fun a b => a + 1 / rate < b) emits →
      (∀ a ∈ emits, a ≤ last) →
      (emits.length : ℚ) * (1 / rate) ≤ last →
      ∃ emits' : List ℚ,
        (∀ c, c < n → chTickets c (times.foldl (ticketStep n rate) (last, sent)).2 = emits') ∧
        (times.foldl (ticketStep n rate) (last, sent)).2.length = n * emits'.length ∧
        List.Chain' (fun a b => a + 1 / rate < b) emits' ∧
        (∀ a ∈ emits', a ≤ (times.foldl (ticketStep n rate) (last, sent)).1) ∧
        ((emits'.length : ℚ) * (1 / rate) ≤ (times.foldl (ticketStep n rate) (last, sent)).1) := by
  induction times with
  | nil =>
      intro last sent emits h1 h2 h3 h4 h5
      exact ⟨emits, h1, h2, h3, h4, h5⟩
  | cons t ts ih =>
      intro last sent emits h1 h2 h3 h4 h5
      rw [List.foldl_cons]
      by_cases hcond : 1 / rate < t - last
      · rw [ticketStep_emit n rate last sent t hcond]
        have hrpos : 0 < 1 / rate := by positivity
        have hlt : last < t := by linarith
        apply ih t (sent ++ sendAll n t) (emits ++ [t])
        · intro c hc
          rw [chTickets_append, h1 c hc, chTickets_sendAll, if_pos hc]
        · simp only [List.length_append, h2, sendAll, List.length_map, List.length_range,
            List.length_singleton]
          ring
        · rw [List.chain'_append]
          refine ⟨h3, List.chain'_singleton t, ?_⟩
          intro a ha b hb
          simp only [List.head?_cons, Option.mem_def, Option.some.injEq] at hb
          obtain ⟨hne, hax⟩ := List.mem_getLast?_eq_getLast ha
          have hmem : a ∈ emits := hax ▸ List.getLast_mem hne
          have haux := h4 a hmem
          rw [← hb]
          linarith
        · intro a ha
          rcases List.mem_append.1 ha with h | h
          · exact le_of_lt (lt_of_le_of_lt (h4 a h) hlt)
          · simp only [List.mem_singleton] at h
            subst h
            exact le_refl a
        · push_cast [List.length_append, List.length_singleton]
          have hexp : ((emits.length : ℚ) + 1) * (1 / rate) =
              (emits.length : ℚ) * (1 / rate) + 1 / rate := by ring
          rw [hexp]
          linarith
      · rw [ticketStep_skip n rate last sent t hcond]
        exact ih last sent emits h1 h2 h3 h4 h5

/-- Helper: `last_tickets` never exceeds an upper bound of the observed pass
times. -/
lemma ticketFold_last_le (n : Nat) (rate : ℚ) (times : List ℚ) (T : ℚ) :
    ∀ (last : ℚ) (sent : List (Nat × ℚ)), last ≤ T → (∀ t ∈ times, t ≤ T) →
      (times.foldl (ticketStep n rate) (last, sent)).1 ≤ T := by
  induction times with
  | nil => intro last sent h _; exact h
  | cons t ts ih =>
      intro last sent h ht
      rw [List.foldl_cons]
      by_cases hcond : 1 / rate < t - last
      · rw [ticketStep_emit n rate last sent t hcond]
        exact ih t _ (ht t (List.mem_cons_self _ _)) (fun u hu => ht u (List.mem_cons_of_mem _ hu))
      · rw [ticketStep_skip n rate last sent t hcond]
        exact ih last sent h (fun u hu => ht u (List.mem_cons_of_mem _ hu))

/-- C5 counterexample: ticket emission is a broadcast, so the aggregate
across channels is not bounded by the configured rate. With `rate = 1`,
three controller channels and passes observed at times 2 and 4, the
generator has sent 6 tickets within 4 seconds of its start: aggregate
emission divided by elapsed time exceeds the rate. -/
theorem tickets_aggregate_exceeds_rate_counterexample :
    ((ticketRun 3 1 [2, 4]).2.length : ℚ) / 4 > 1 := by
  norm_num [ticketRun, ticketStep, sendAll, List.foldl_cons, List.foldl_nil,
    List.range_succ, List.range_zero]

/-- C5 amended: the per-channel emission never exceeds the configured rate,
so the aggregate over all `n` controller channels is bounded by `n` times
the configured rate: over any run of passes observed up to time `T`, the
total number of tickets in the send log is at most `n * rate * T`. -/
theorem tickets_rate_bound_per_channel (n : Nat) (rate T : ℚ) (times : List ℚ)
    (hr : 0 < rate) (hT : 0 ≤ T) (ht : ∀ t ∈ times, t ≤ T) :
    ((ticketRun n rate times).2.length : ℚ) ≤ (n : ℚ) * (rate * T) := by
  obtain ⟨emits, h1, h2, h3, h4, h5⟩ :=
    ticketFold_inv n rate hr times 0 [] []
      (fun c hc => by simp [chTickets]) (by simp) List.chain'_nil (by simp) (by simp)
  have hlast : (times.foldl (ticketStep n rate) (0, [])).1 ≤ T :=
    ticketFold_last_le n rate times T 0 [] hT ht
  have hlen : (emits.length : ℚ) * (1 / rate) ≤ T := le_trans h5 hlast
  have hlenr : (emits.length : ℚ) ≤ rate * T := by
    have h6 : (emits.length : ℚ) * (1 / rate) * rate ≤ T * rate :=
      mul_le_mul_of_nonneg_right hlen (le_of_lt hr)
    have h7 : (emits.length : ℚ) * (1 / rate) * rate = emits.length := by
      field_simp
    rw [h7] at h6
    linarith
  show ((ticketRun n rate times).2.length : ℚ) ≤ n * (rate * T)
  rw [ticketRun, h2]
  push_cast
  exact mul_le_mul_of_nonneg_left hlenr (Nat.cast_nonneg n)

/-- C5 witness: with rate 1, two channels and passes at times 2 and 4
(bounded by T = 4), the 4 logged tickets are within the amended bound
`2 * (1 * 4) = 8`. -/
theorem tickets_rate_bound_per_channel_witness :
    ((ticketRun 2 1 [2, 4]).2.length : ℚ) ≤ ((2 : Nat) : ℚ) * (1 * 4) :=
  tickets_rate_bound_per_channel 2 1 4 [2, 4] (by norm_num) (by norm_num)
    (by intro t htt; fin_cases htt <;> norm_num)

/-- C6: a scheduling pass emits exactly when the current time minus
`last_tickets` exceeds `1/rate`; when it emits, every one of the `n`
controller channels receives the same ticket-time sequence (one ticket per
channel per pass); and consecutive tickets on any single channel are more
than `1/rate` seconds apart. -/
theorem ticket_emission_broadcast_spacing (n : Nat) (rate : ℚ) (times : List ℚ)
    (hr : 0 < rate) :
    (∀ (last t : ℚ) (sent : List (Nat × ℚ)),
        ticketStep n rate (last, sent) t ≠ (last, sent) ↔ 1 / rate < t - last) ∧
    ∃ emits : List ℚ,
      (∀ c, c < n → chTickets c (ticketRun n rate times).2 = emits) ∧
      List.Chain' (fun a b => a + 1 / rate < b) emits := by
  constructor
  · intro last t sent
    constructor
    · intro hne
      by_contra hc
      exact hne (ticketStep_skip n rate last sent t hc)
    · intro hc heq
      rw [ticketStep_emit n rate last sent t hc] at heq
      have h1 : t = last := congrArg Prod.fst heq
      have hp : (0 : ℚ) < 1 / rate := by positivity
      rw [h1] at hc
      simp only [sub_self] at hc
      linarith
  · obtain ⟨emits, h1, _, h3, _, _⟩ :=
      ticketFold_inv n rate hr times 0 [] [] (fun c hc => by simp [chTickets]) (by simp)
        List.chain'_nil (by simp) (by simp)
    exact ⟨emits, h1, h3⟩

/-- C6 witness: with rate 1, one channel and passes at times 2 and 4, the
channel receives tickets at times 2 and 4, more than 1 second apart. -/
theorem ticket_emission_broadcast_spacing_witness :
    chTickets 0 (ticketRun 1 1 [2, 4]).2 = [2, 4] ∧
    List.Chain' (fun a b : ℚ => a + 1 / 1 < b) (chTickets 0 (ticketRun 1 1 [2, 4]).2) := by
  obtain ⟨hiff, emits, hch, hchain⟩ :=
    ticket_emission_broadcast_spacing 1 1 [2, 4] (by norm_num)
  have e1 : chTickets 0 (ticketRun 1 1 [2, 4]).2 = [2, 4] := by
    norm_num [chTickets, ticketRun, ticketStep, sendAll, List.foldl_cons, List.foldl_nil,
      List.range_succ, List.range_zero, List.filter_cons]
  refine ⟨e1, ?_⟩
  rw [hch 0 Nat.one_pos]
  exact hchain

/-- Helper: a list is a permutation of its `k`-th element consed onto the
list with index `k` erased. -/
lemma perm_get_eraseIdx (l : List α) : ∀ (k : Nat) (h : k < l.length),
    l.Perm (l.get ⟨k, h⟩ :: l.eraseIdx k) := by
  induction l with
  | nil => intro k h; simp at h
  | cons x xs ih =>
      intro k h
      cases k with
      | zero => simp [List.eraseIdx]
      | succ k =>
          have hk : k < xs.length := by simpa using Nat.lt_of_succ_lt_succ h
          have h2 := (ih k hk).cons x
          refine h2.trans ?_
          simpa [List.eraseIdx_cons_succ] using
            List.Perm.swap (xs.get ⟨k, hk⟩) x (xs.eraseIdx k)

/-- Helper: reaping one completion permutes the accountable items (moving
one item from in-flight to processed), keeps the counter equal to the
in-flight count, and touches neither the queue nor the halt flag. -/
lemma reapOne_inv (s : CtrlState) (c : Nat × PyType)
    (hc : s.counter = (s.inFlight.length : ℤ)) :
    (ctrlItems (reapOne s c)).Perm (ctrlItems s) ∧
    (reapOne s c).counter = ((reapOne s c).inFlight.length : ℤ) ∧
    (reapOne s c).halted = s.halted ∧
    (reapOne s c).queue = s.queue := by
  unfold reapOne
  by_cases h : c.1 < s.inFlight.length
  · rw [dif_pos h]
    refine ⟨?_, ?_, rfl, rfl⟩
    · unfold ctrlItems
      simp only [List.map_append, List.map_cons, List.map_nil]
      have hperm : (s.inFlight.map Prod.snd).Perm
          ((s.inFlight.get ⟨c.1, h⟩).2 :: (s.inFlight.eraseIdx c.1).map Prod.snd) := by
        simpa using (perm_get_eraseIdx s.inFlight c.1 h).map Prod.snd
      have key : ((s.inFlight.eraseIdx c.1).map Prod.snd ++
            (s.processed.map Prod.fst ++ [(s.inFlight.get ⟨c.1, h⟩).2])).Perm
          (s.inFlight.map Prod.snd ++ s.processed.map Prod.fst) :=
        List.Perm.trans
          (List.Perm.trans
            ((List.perm_append_singleton _ _).append_left _)
            List.perm_middle)
          ((hperm.symm).append_right _)
      have goal2 := key.append_left s.queue
      simpa [List.append_assoc] using goal2
    · show s.counter - 1 = ((s.inFlight.eraseIdx c.1).length : ℤ)
      have hlen : (s.inFlight.eraseIdx c.1).length = s.inFlight.length - 1 := by
        rw [List.length_eraseIdx]
        simp [h]
      rw [hc, hlen]
      omega
  · rw [dif_neg h]
    exact ⟨List.Perm.refl _, hc, rfl, rfl⟩

/-- Helper: the reaping invariant extended over every ready completion of
one iteration. -/
lemma reapAll_inv (cs : List (Nat × PyType)) (s : CtrlState)
    (hc : s.counter = (s.inFlight.length : ℤ)) :
    (ctrlItems (cs.foldl reapOne s)).Perm (ctrlItems s) ∧
    (cs.foldl reapOne s).counter = ((cs.foldl reapOne s).inFlight.length : ℤ) ∧
    (cs.foldl reapOne s).halted = s.halted ∧
    (cs.foldl reapOne s).queue = s.queue := by
  induction cs generalizing s with
  | nil => exact ⟨List.Perm.refl _, hc, rfl, rfl⟩
  | cons c cs ih =>
      obtain ⟨h1, h2, h3, h4⟩ := reapOne_inv s c hc
      obtain ⟨g1, g2, g3, g4⟩ := ih (reapOne s c) h2
      exact ⟨g1.trans h1, g2, g3.trans h3, g4.trans h4⟩

/-- Helper: one full controller iteration preserves the accountable items
up to permutation, the counter/in-flight equality, and the guarantee that a
halted controller has an empty queue and nothing in flight. -/
lemma ctrlStep_inv (n : Nat) (s : CtrlState) (o : CtrlObs)
    (hc : s.counter = (s.inFlight.length : ℤ))
    (hh : s.halted = true → s.queue = [] ∧ s.inFlight = []) :
    (ctrlItems (ctrlStep n s o)).Perm (ctrlItems s) ∧
    (ctrlStep n s o).counter = ((ctrlStep n s o).inFlight.length : ℤ) ∧
    ((ctrlStep n s o).halted = true →
      (ctrlStep n s o).queue = [] ∧ (ctrlStep n s o).inFlight = []) := by
  unfold ctrlStep
  by_cases hhalt : s.halted
  · rw [if_pos hhalt]
    exact ⟨List.Perm.refl _, hc, hh⟩
  · rw [if_neg hhalt]
    by_cases hdone : s.counter = 0 ∧ s.queue = []
    · rw [if_pos hdone]
      refine ⟨List.Perm.refl _, hc, fun _ => ⟨hdone.2, ?_⟩⟩
      have : (s.inFlight.length : ℤ) = 0 := by rw [← hc]; exact hdone.1
      have hlen : s.inFlight.length = 0 := by exact_mod_cast this
      exact List.length_eq_zero.mp hlen
    · rw [if_neg hdone]
      by_cases htick : o.ticket
      · rw [if_pos htick]
        cases hq : s.queue with
        | nil => exact ⟨List.Perm.refl _, hc, fun hfalse => absurd hfalse (by simp [hhalt])⟩
        | cons i rest =>
            set s2 : CtrlState :=
              { s with
                queue := rest
                inFlight := s.inFlight ++ [(poolChoice n s.inFlight, i)]
                counter := s.counter + 1 } with hs2
            have hc2 : s2.counter = (s2.inFlight.length : ℤ) := by
              simp only [hs2, List.length_append, List.length_cons, List.length_nil]
              push_cast
              omega
            obtain ⟨g1, g2, g3, g4⟩ := reapAll_inv o.completions s2 hc2
            refine ⟨?_, g2, ?_⟩
            · refine g1.trans ?_
              unfold ctrlItems
              simp only [hs2, List.map_append, List.map_cons, List.map_nil, hq]
              have step1 : ((s.inFlight.map Prod.snd ++ [i]) ++
                  s.processed.map Prod.fst).Perm
                  (i :: (s.inFlight.map Prod.snd ++ s.processed.map Prod.fst)) :=
                (List.perm_append_singleton i (s.inFlight.map Prod.snd)).append_right
                  (s.processed.map Prod.fst)
              have step2 := step1.append_left rest
              have hmid : (rest ++ ((s.inFlight.map Prod.snd ++ [i]) ++
                  s.processed.map Prod.fst)).Perm
                  ((i :: rest) ++ (s.inFlight.map Prod.snd ++ s.processed.map Prod.fst)) :=
                step2.trans List.perm_middle
              simpa [List.append_assoc] using hmid
            · intro hhal
              rw [g3] at hhal
              simp only [hs2] at hhal
              exact absurd hhal (by simp [hhalt])
      · rw [if_neg htick]
        obtain ⟨g1, g2, g3, g4⟩ := reapAll_inv o.completions s hc
        refine ⟨g1, g2, fun hhal => ?_⟩
        rw [g3] at hhal
        exact absurd hhal (by simp [hhalt])

/-- Helper: the controller invariant over a whole run. -/
lemma ctrlFold_inv (n : Nat) (obs : List CtrlObs) (s : CtrlState)
    (hc : s.counter = (s.inFlight.length : ℤ))
    (hh : s.halted = true → s.queue = [] ∧ s.inFlight = []) :
    (ctrlItems (obs.foldl (ctrlStep n) s)).Perm (ctrlItems s) ∧
    ((obs.foldl (ctrlStep n) s).halted = true →
      (obs.foldl (ctrlStep n) s).queue = [] ∧ (obs.foldl (ctrlStep n) s).inFlight = []) := by
  induction obs generalizing s with
  | nil => exact ⟨List.Perm.refl _, hh⟩
  | cons o os ih =>
      obtain ⟨h1, h2, h3⟩ := ctrlStep_inv n s o hc hh
      obtain ⟨g1, g3⟩ := ih (ctrlStep n s o) h2 h3
      exact ⟨g1.trans h1, g3⟩

/-- C1: in any controller run over staged items (no duplicates) that
reaches the loop's `break`, the items delivered to callback batches are
exactly the staged items: each staged item got exactly one batch — never
zero, never two — and the single batch ran the callbacks of exactly one
kind, `RESPONSE` or `ERROR`, never both. Equivalently, each dequeued item
was owned by one pool until its completion was reaped and processed once by
its owning controller. -/
theorem controller_exactly_once (nPools : Nat) (staged : List Item) (obs : List CtrlObs)
    (hnd : staged.Nodup) (hhalt : (ctrlRun nPools staged obs).halted = true) :
    ((ctrlRun nPools staged obs).processed.map Prod.fst).Perm staged ∧
    (∀ i ∈ staged, ((ctrlRun nPools staged obs).processed.map Prod.fst).count i = 1) ∧
    (∀ (i : Item) (k k' : RequestEvent),
      (i, k) ∈ (ctrlRun nPools staged obs).processed →
      (i, k') ∈ (ctrlRun nPools staged obs).processed → k = k') := by
  have hrun : ctrlRun nPools staged obs = obs.foldl (ctrlStep nPools) (ctrlInit staged) := rfl
  obtain ⟨h1, h3⟩ := ctrlFold_inv nPools obs (ctrlInit staged) (by simp [ctrlInit])
    (by simp [ctrlInit])
  rw [← hrun] at h1 h3
  obtain ⟨hq, hf⟩ := h3 hhalt
  have hitems : ctrlItems (ctrlRun nPools staged obs) =
      (ctrlRun nPools staged obs).processed.map Prod.fst := by
    unfold ctrlItems
    rw [hq, hf]
    simp
  have hinit : ctrlItems (ctrlInit staged) = staged := by
    simp [ctrlItems, ctrlInit]
  have hperm : ((ctrlRun nPools staged obs).processed.map Prod.fst).Perm staged := by
    have h1a := h1
    rw [hitems, hinit] at h1a
    exact h1a
  refine ⟨hperm, ?_, ?_⟩
  · intro i hi
    rw [hperm.count_eq]
    exact List.count_eq_one_of_mem hnd hi
  · intro i k k' hk hk'
    have hnd2 : ((ctrlRun nPools staged obs).processed.map Prod.fst).Nodup :=
      hperm.nodup_iff.mpr hnd
    have heq : (i, k) = (i, k') :=
      List.inj_on_of_nodup_map hnd2 hk hk' rfl
    exact congrArg Prod.snd heq

/-- C1 witness: a concrete two-item run — one item completes as a
`Response`, the other as a failure — halts with both items processed exactly
once. -/
theorem controller_exactly_once_witness :
    ((ctrlRun 1 [0, 1]
        [{ ticket := true, completions := [] },
         { ticket := true, completions := [(0, PyType.Response)] },
         { ticket := false, completions := [(0, PyType.ErrorResult)] },
         { ticket := false, completions := [] }]).processed.map Prod.fst).Perm [0, 1] :=
  (controller_exactly_once 1 [0, 1]
    [{ ticket := true, completions := [] },
     { ticket := true, completions := [(0, PyType.Response)] },
     { ticket := false, completions := [(0, PyType.ErrorResult)] },
     { ticket := false, completions := [] }]
    (by decide) (by decide)).1


end Fastclient
